import Mathlib

/-!
# Verification of the unified MCP server core (src/server.js)

A shallow embedding of the aggregation engine in `src/server.js`:
the backend registry (`mcpProcesses`, a JS `Map`), the supervisor loop
(`initializeMCPServers`), the protocol router (`MCPHandler`), and the
WebSocket message handler.  JS strings are modelled as `List Char`;
JS `Map` iteration order (insertion order) is modelled by association
lists; JS `undefined`-able values are modelled with `Option`.

Two scoping facts of JavaScript drive the error-path behaviour and are
modelled explicitly where they matter:

* In the WebSocket `message` handler, `const request` is declared inside
  the `try` block; the `catch` block nevertheless reads `request.id`.
  `const` bindings are block-scoped, so `request` is not in scope in the
  `catch` block and evaluating `request.id` there raises a
  `ReferenceError`; the `ws.send` call in the `catch` never executes.

* In `initializeMCPServers`, the loop body declares
  `const process = spawn("npx", [...], with env of ...process.env)`.
  The identifier `process` inside the options object resolves to the
  block-scoped `const process` itself (shadowing the Node global), which is
  still in its temporal dead zone while its own initializer is being
  evaluated, so the spread `...process.env` raises a `ReferenceError`
  before `spawn` is invoked; the surrounding `try`/`catch` logs the error
  and the loop proceeds to the next backend.
-/

namespace UMCP

/-- JS strings are modelled as lists of characters. -/
abbrev Str := List Char

/-- Embed a Lean string literal as a modelled JS string. -/
def str (s : String) : Str := s.data

/-- Template-literal interpolation of a possibly-`undefined` JS string:
`undefined` prints as the text `undefined`. -/
def jsShow : Option Str → Str
  | none => str "undefined"
  | some s => s

/-! ## JS string splitting and joining

`String.prototype.split(sep)` with a one-character separator splits on
every occurrence of the separator; `Array.prototype.join(sep)` is its
inverse on the resulting segments.  `splitAll` never returns `[]`
(splitting the empty string gives `[[]]`, as `"".split` gives `[""]`). -/

/-- JS `s.split(sep)` for a single-character separator. -/
def splitAll (sep : Char) : Str → List Str
  | [] => [[]]
  | c :: cs =>
    if c = sep then [] :: splitAll sep cs
    else
      (c :: (splitAll sep cs).headI) :: (splitAll sep cs).tail

/-- JS `parts.join(sep)` for a single-character separator. -/
def joinSep (sep : Char) : List Str → Str
  | [] => []
  | [s] => s
  | s :: r :: rest => s ++ sep :: joinSep sep (r :: rest)

/-- The text of `s` strictly before the first occurrence of `sep`. -/
def beforeSep (sep : Char) (s : Str) : Str := s.takeWhile (fun c => c != sep)

/-- The text of `s` strictly after the first occurrence of `sep`
(empty when `sep` does not occur). -/
def afterFirst (sep : Char) (s : Str) : Str :=
  (s.dropWhile (fun c => c != sep)).drop 1

theorem splitAll_cons_sep (sep : Char) (cs : Str) :
    splitAll sep (sep :: cs) = [] :: splitAll sep cs := by
  rw [splitAll]
  simp

theorem splitAll_cons_ne (sep c : Char) (cs : Str) (h : c ≠ sep) :
    splitAll sep (c :: cs)
      = (c :: (splitAll sep cs).headI) :: (splitAll sep cs).tail := by
  rw [splitAll]
  simp [h]

theorem splitAll_ne_nil (sep : Char) (s : Str) : splitAll sep s ≠ [] := by
  cases s with
  | nil => simp [splitAll]
  | cons c cs =>
    by_cases h : c = sep
    · subst h; rw [splitAll_cons_sep]; simp
    · rw [splitAll_cons_ne sep c cs h]; simp

theorem splitAll_headI (sep : Char) (s : Str) :
    (splitAll sep s).headI = beforeSep sep s := by
  induction s with
  | nil => simp [splitAll, beforeSep]
  | cons c cs ih =>
    simp only [beforeSep] at ih ⊢
    by_cases h : c = sep
    · subst h
      rw [splitAll_cons_sep]
      simp [List.takeWhile_cons]
    · rw [splitAll_cons_ne sep c cs h]
      have hb : (c != sep) = true := by simp [bne_iff_ne, h]
      simp [List.takeWhile_cons, hb, ih]

theorem splitAll_eq_cons (sep : Char) (s : Str) :
    splitAll sep s = beforeSep sep s :: (splitAll sep s).tail := by
  have h := splitAll_ne_nil sep s
  rcases hs : splitAll sep s with _ | ⟨a, t⟩
  · exact absurd hs h
  · have := splitAll_headI sep s
    rw [hs] at this
    simp [List.headI] at this
    simp [this]

theorem splitAll_append_sepFree (sep : Char) (xs ys : Str)
    (h : ∀ c ∈ xs, c ≠ sep) :
    splitAll sep (xs ++ sep :: ys) = xs :: splitAll sep ys := by
  induction xs with
  | nil =>
    simp only [List.nil_append]
    exact splitAll_cons_sep sep ys
  | cons c cs ih =>
    have hc : c ≠ sep := h c (by simp)
    have ih' := ih (fun d hd => h d (by simp [hd]))
    simp only [List.cons_append]
    rw [splitAll_cons_ne sep c _ hc, ih']
    simp

theorem splitAll_sepFree (sep : Char) (xs : Str) (h : ∀ c ∈ xs, c ≠ sep) :
    splitAll sep xs = [xs] := by
  induction xs with
  | nil => simp [splitAll]
  | cons c cs ih =>
    have hc : c ≠ sep := h c (by simp)
    have ih' := ih (fun d hd => h d (by simp [hd]))
    rw [splitAll_cons_ne sep c cs hc, ih']
    simp

theorem joinSep_splitAll (sep : Char) (s : Str) :
    joinSep sep (splitAll sep s) = s := by
  induction s with
  | nil => simp [splitAll, joinSep]
  | cons c cs ih =>
    by_cases h : c = sep
    · rw [h, splitAll_cons_sep]
      rcases hs : splitAll sep cs with _ | ⟨a, t⟩
      · exact absurd hs (splitAll_ne_nil sep cs)
      · rw [hs] at ih
        simp only [joinSep, List.nil_append]
        rw [ih]
    · rw [splitAll_cons_ne sep c cs h]
      rcases hs : splitAll sep cs with _ | ⟨a, t⟩
      · exact absurd hs (splitAll_ne_nil sep cs)
      · rw [hs] at ih
        cases t with
        | nil =>
          simp only [List.headI_cons, List.tail_cons, joinSep] at ih ⊢
          rw [ih]
        | cons b tb =>
          simp only [List.headI_cons, List.tail_cons, joinSep,
            List.cons_append] at ih ⊢
          rw [ih]

theorem joinSep_tail_splitAll (sep : Char) (s : Str) :
    joinSep sep ((splitAll sep s).tail) = afterFirst sep s := by
  induction s with
  | nil => simp [splitAll, joinSep, afterFirst]
  | cons c cs ih =>
    by_cases h : c = sep
    · rw [h, splitAll_cons_sep]
      simp only [List.tail_cons]
      rw [joinSep_splitAll]
      simp [afterFirst, List.dropWhile_cons]
    · rw [splitAll_cons_ne sep c cs h]
      simp only [List.tail_cons]
      have hb : (c != sep) = true := by simp [bne_iff_ne, h]
      have ha : afterFirst sep (c :: cs) = afterFirst sep cs := by
        simp [afterFirst, List.dropWhile_cons, hb]
      rw [ha, ← ih]

/-! ## The Backend Registry (`mcpProcesses`, a JS `Map`)

A JS `Map` iterates in insertion order; we model it as an association
list.  `Map.set` on an existing key updates the value in place (keeping
the original position), otherwise appends; `Map.delete` removes the
entry; `Map.has` tests key membership. -/

/-- One entry of `mcpProcesses`: `{ process, url, status }`.  The process
handle is owned by the supervisor and carries no data the router reads,
so it is not modelled. -/
structure BackendEntry where
  url : Str
  status : Str
deriving DecidableEq, Repr

/-- The `mcpProcesses` map: backend name to entry, in insertion order. -/
abbrev Registry := List (Str × BackendEntry)

/-- JS `mcpProcesses.has(k)`. -/
def mapHas (k : Str) (reg : Registry) : Bool := reg.any (fun p => p.1 == k)

/-- JS `mcpProcesses.set(k, v)`: update in place if present, else append. -/
def mapSet (k : Str) (v : BackendEntry) (reg : Registry) : Registry :=
  if reg.any (fun p => p.1 == k) then
    reg.map (fun p => if p.1 == k then (k, v) else p)
  else
    reg ++ [(k, v)]

/-- JS `mcpProcesses.delete(k)`. -/
def mapDelete (k : Str) (reg : Registry) : Registry :=
  reg.filter (fun p => p.1 != k)

/-- The configured `REPOSITORIES` object of `src/server.js`. -/
def REPOSITORIES : List (Str × Str) :=
  [ (str "context7", str "https://gitmcp.io/upstash/context7"),
    (str "n8n-mcp", str "https://gitmcp.io/nicknerov/n8n-mcp"),
    (str "n8n-workflows", str "https://gitmcp.io/Zie619/n8n-workflows") ]

/-! ## The Process Supervisor (`initializeMCPServers`)

The loop body runs inside `try { const process = spawn(..., { env:
{ ...process.env, ... } }) ... } catch (error) { log }`.  The options
object is an argument of `spawn`, so it is evaluated first; its
`...process.env` spread resolves `process` to the block-scoped `const
process` being declared, which is in its temporal dead zone, raising a
`ReferenceError`.  We model the evaluation of the options object against
the state of that binding explicitly. -/

/-- State of a block-scoped (`const`) binding during block execution. -/
inductive BindingState
  | uninitialized
  | initialized
deriving DecidableEq, Repr

/-- A JS error value, as coarse as the code observes it. -/
inductive JsErr
  | thrown (message : Str)
  | typeError (message : Str)
  | refError (message : Str)
deriving DecidableEq, Repr

/-- Evaluation of the spawn options object
`with stdio pipes and env of ...process.env plus NODE_ENV`.
The identifier `process` resolves to the innermost declaration — the
`const process` of the same `try` block — so the access succeeds only
once that binding is initialized, which it is not while its own
initializer runs. -/
def evalSpawnOptions (processBinding : BindingState) : Except JsErr Unit :=
  match processBinding with
  | .uninitialized =>
    .error (.refError (str "Cannot access process before it is defined"))
  | .initialized => .ok ()

/-- One iteration of the `initializeMCPServers` loop for `(name, url)`:
evaluate the spawn call and, on success, register the backend as
`running`; the `catch` swallows any error, leaving the registry
untouched.  The spawn options are evaluated while `const process` is
still uninitialized. -/
def startOne (reg : Registry) (name url : Str) : Registry :=
  match evalSpawnOptions .uninitialized with
  | .error _ => reg
  | .ok _ => mapSet name (BackendEntry.mk url (str "running")) reg

/-- `initializeMCPServers`: iterate the configured `(name, url)` pairs,
each protected by its own `try`/`catch`. -/
def initializeMCPServers (configs : List (Str × Str)) (reg : Registry) :
    Registry :=
  configs.foldl (fun r p => startOne r p.1 p.2) reg

/-! ## Registry lifecycle events (for the reachable-state invariant)

The only writes to `mcpProcesses` anywhere in `src/server.js` are
`mcpProcesses.set(name, an entry with status "running")` in the
supervisor loop and `mcpProcesses.delete(name)` in the per-process
`exit` handler. -/

/-- A registry-mutating event, as the code performs them. -/
inductive RegEvent
  | spawned (name url : Str)
  | exited (name : Str) (code : Int)
deriving DecidableEq, Repr

/-- The registry mutation performed by each event. -/
def regStep (reg : Registry) : RegEvent → Registry
  | .spawned n u => mapSet n (BackendEntry.mk u (str "running")) reg
  | .exited n _ => mapDelete n reg

/-- The registry reached from the initial empty map by a sequence of
lifecycle events. -/
def regReach (evs : List RegEvent) : Registry := evs.foldl regStep []

/-- An entry of the `GET /health` `processes` array. -/
structure ProcInfo where
  name : Str
  status : Str
  url : Str
deriving DecidableEq, Repr

/-- The `processes` field of the `/health` snapshot. -/
def healthProcesses (reg : Registry) : List ProcInfo :=
  reg.map (fun p => ProcInfo.mk p.1 p.2.status p.2.url)

/-- The `repositories` field of the `/health` snapshot. -/
def healthRepositories (reg : Registry) : List Str := reg.map (fun p => p.1)

/-! ## Capability descriptors (`getAllTools`, `getAllResources`) -/

/-- A literal JSON value occurring in a schema `default`. -/
inductive JsonLit
  | numL (n : Nat)
  | strL (s : Str)
deriving DecidableEq, Repr

/-- One property of a tool input schema. -/
structure PropSchema where
  type : Str
  description : Option Str
  defaultVal : Option JsonLit
deriving DecidableEq, Repr

/-- A tool input schema: `{ type, properties, required? }`. -/
structure InputSchema where
  type : Str
  properties : List (Str × PropSchema)
  required : Option (List Str)
deriving DecidableEq, Repr

/-- A ToolDescriptor. -/
structure Tool where
  name : Str
  description : Str
  inputSchema : InputSchema
deriving DecidableEq, Repr

/-- A ResourceDescriptor. -/
structure Resource where
  uri : Str
  name : Str
  description : Str
  mimeType : Str
deriving DecidableEq, Repr

/-- `getAllTools`: for each registry entry with `status === "running"`,
in iteration order, push a `<name>_search` and a `<name>_list` tool
descriptor (the record literals of the source, verbatim). -/
def getAllTools : Registry → List Tool
  | [] => []
  | (repoName, repoData) :: rest =>
    (if repoData.status = str "running" then
      [ Tool.mk (repoName ++ str "_search")
          (str "Search " ++ repoName ++ str " repository")
          (InputSchema.mk (str "object")
            [ (str "query",
               PropSchema.mk (str "string") (some (str "Search query")) none),
              (str "limit",
               PropSchema.mk (str "number") none (some (JsonLit.numL 10))) ]
            (some [str "query"])),
        Tool.mk (repoName ++ str "_list")
          (str "List files in " ++ repoName ++ str " repository")
          (InputSchema.mk (str "object")
            [ (str "path",
               PropSchema.mk (str "string") none
                 (some (JsonLit.strL (str "/")))) ]
            none) ]
     else []) ++ getAllTools rest

/-- `getAllResources`: one resource descriptor per running entry, in
iteration order. -/
def getAllResources : Registry → List Resource
  | [] => []
  | (repoName, repoData) :: rest =>
    (if repoData.status = str "running" then
      [ Resource.mk (str "mcp://" ++ repoName ++ str "/")
          (repoName ++ str " Repository")
          (str "Access to " ++ repoName ++ str " repository files")
          (str "application/json") ]
     else []) ++ getAllResources rest

/-! ## The Protocol Router (`MCPHandler`) -/

/-- The arguments object of a `tools/call`; each field may be absent
(`undefined`).  The HTTP adapter always passes an object
(`req.body.arguments || {}`); the channel adapter passes
`params.arguments` as is, so the object itself may be absent — hence
`Option ToolArgs` at the call sites. -/
structure ToolArgs where
  query : Option Str
  path : Option Str
deriving DecidableEq, Repr

/-- One hit of the simulated `search` result payload. -/
structure SearchHit where
  path : Str
  content : Str
  score : Rat
deriving DecidableEq, Repr

/-- One entry of the simulated `list` result payload. -/
structure FileEntry where
  name : Str
  type : Str
  path : Str
deriving DecidableEq, Repr

/-- The result payload of a `tools/call`. -/
inductive CallResult
  | searchResults (hits : List SearchHit)
  | files (entries : List FileEntry)
deriving DecidableEq, Repr

/-- One element of the `contents` array of a `resources/read` result. -/
structure ReadContent where
  uri : Str
  mimeType : Str
  text : Str
deriving DecidableEq, Repr

/-- The result payload of a `resources/read`. -/
structure ReadResult where
  contents : List ReadContent
deriving DecidableEq, Repr

/-- The `serverInfo` of the `initialize` result. -/
structure ServerInfo where
  name : Str
  version : Str
deriving DecidableEq, Repr

/-- The `initialize` result; the declared `capabilities` are two empty
objects carrying no data. -/
structure InitResult where
  protocolVersion : Str
  serverInfo : ServerInfo
deriving DecidableEq, Repr

/-- The result payload of a routed request. -/
inductive RpcResult
  | initR (r : InitResult)
  | toolsList (tools : List Tool)
  | callR (r : CallResult)
  | resourcesList (resources : List Resource)
  | readR (r : ReadResult)
deriving DecidableEq, Repr

/-- Message of the TypeError raised by a property access on `undefined`. -/
def typeMsg : Str := str "Cannot read properties of undefined"

/-- The separator of qualified tool names. -/
def sepChar : Char := '_'

/-- `const [repoName, action] = name.split(sepChar)`: JS `split` cuts at
every separator; the destructuring keeps only the first two segments,
`action` being `undefined` when the name has no separator. -/
def parseToolName (nm : Str) : Str × Option Str :=
  match splitAll sepChar nm with
  | [] => (str "", none)
  | [r] => (r, none)
  | r :: a :: _ => (r, some a)

/-- Message of the error thrown for an unknown backend:
`Repository <name> not available`. -/
def unknownBackendMsg (repoName : Str) : Str :=
  str "Repository " ++ repoName ++ str " not available"

/-- Message of the error thrown for an unrecognized action:
`Unknown action: <action>`. -/
def unknownActionMsg (action : Option Str) : Str :=
  str "Unknown action: " ++ jsShow action

/-- `MCPHandler.callTool(name, args)`.  The state-passing pair records
that the method performs no registry write (it only calls
`mcpProcesses.has`).  The order of the source is kept: destructure the
split name, check `mcpProcesses.has(repoName)`, then dispatch on the
action.  Accessing `args.query`/`args.path` with an absent arguments
object raises a TypeError inside the recognized-action branches. -/
def callTool (reg : Registry) (name : Option Str) (args : Option ToolArgs) :
    Except JsErr RpcResult × Registry :=
  match name with
  | none => (Except.error (.typeError typeMsg), reg)
  | some nm =>
    let rn := parseToolName nm
    if mapHas rn.1 reg then
      match rn.2 with
      | some a =>
        if a = str "search" then
          match args with
          | none => (Except.error (.typeError typeMsg), reg)
          | some ar =>
            (Except.ok (.callR (.searchResults
              [ SearchHit.mk (str "/" ++ rn.1 ++ str "/example.md")
                  (str "Search results for \"" ++ jsShow ar.query
                    ++ str "\" in " ++ rn.1)
                  (0.95 : Rat) ])), reg)
        else if a = str "list" then
          match args with
          | none => (Except.error (.typeError typeMsg), reg)
          | some ar =>
            (Except.ok (.callR (.files
              [ FileEntry.mk (str "README.md") (str "file")
                  (jsShow ar.path ++ str "/README.md"),
                FileEntry.mk (str "docs") (str "directory")
                  (jsShow ar.path ++ str "/docs/") ])), reg)
        else (Except.error (.thrown (unknownActionMsg (some a))), reg)
      | none => (Except.error (.thrown (unknownActionMsg none)), reg)
    else (Except.error (.thrown (unknownBackendMsg rn.1)), reg)

/-- `MCPHandler.readResource(uri)`:
`const [, , repoName, ...pathParts] = uri.split(slash)`;
`const path = pathParts.join(slash)`; always returns a contents payload
(no check of any kind). -/
def readResource (uri : Str) : ReadResult :=
  let parts := splitAll '/' uri
  let repoName : Option Str := parts.get? 2
  let path := joinSep '/' (parts.drop 3)
  ReadResult.mk
    [ ReadContent.mk uri (str "text/plain")
        (str "Content of " ++ path ++ str " from " ++ jsShow repoName
          ++ str " repository") ]

/-- The `resources/read` dispatch: accessing `.split` on an `undefined`
`uri` raises a TypeError; otherwise `readResource` cannot fail. -/
def readResourceOp (reg : Registry) (uri : Option Str) :
    Except JsErr RpcResult × Registry :=
  match uri with
  | none => (Except.error (.typeError typeMsg), reg)
  | some u => (Except.ok (.readR (readResource u)), reg)

/-- The `params` object of an inbound request, with each field possibly
absent. -/
structure Params where
  name : Option Str
  arguments : Option ToolArgs
  uri : Option Str
deriving DecidableEq, Repr

/-- `MCPHandler.handleRequest(method, params)`: the `switch` on the
method string; the default branch throws `Unknown method: <method>`.
For `tools/call` and `resources/read`, `params.name` / `params.uri` is
read first, raising a TypeError when `params` is absent. -/
def handleRequest (reg : Registry) (method : Option Str)
    (params : Option Params) : Except JsErr RpcResult × Registry :=
  if method = some (str "initialize") then
    (Except.ok (.initR (InitResult.mk (str "2024-11-05")
      (ServerInfo.mk (str "unified-mcp-server") (str "1.0.0")))), reg)
  else if method = some (str "tools/list") then
    (Except.ok (.toolsList (getAllTools reg)), reg)
  else if method = some (str "tools/call") then
    match params with
    | none => (Except.error (.typeError typeMsg), reg)
    | some p => callTool reg p.name p.arguments
  else if method = some (str "resources/list") then
    (Except.ok (.resourcesList (getAllResources reg)), reg)
  else if method = some (str "resources/read") then
    match params with
    | none => (Except.error (.typeError typeMsg), reg)
    | some p => readResourceOp reg p.uri
  else
    (Except.error (.thrown (str "Unknown method: " ++ jsShow method)), reg)

/-! ## The channel (WebSocket) transport adapter

`wss.on("connection")` installs a `message` handler:

```
try {
  const request = JSON.parse(message.toString());
  const response = await mcpHandler.handleRequest(request.method, request.params);
  ws.send(JSON.stringify({ jsonrpc: "2.0", id: request.id, result: response }));
} catch (error) {
  ws.send(JSON.stringify({ jsonrpc: "2.0", id: request.id,
                           error: { code: -32000, message: error.message } }));
}
```

`request` is a `const` of the `try` block, hence not in scope in the
`catch` block; evaluating `request.id` there raises a `ReferenceError`
before `ws.send` runs, so every error path of the handler sends nothing
and the handler itself faults (the async callback rejects). -/

/-- A JSON-RPC request id as the code passes it through. -/
inductive IdVal
  | num (n : Int)
  | strV (s : Str)
deriving DecidableEq, Repr

/-- The fields of a parsed inbound envelope that the handler reads. -/
structure InMsg where
  id : Option IdVal
  method : Option Str
  params : Option Params
deriving DecidableEq, Repr

/-- The outcome of `JSON.parse` on the raw channel message:
`malformed` when `JSON.parse` throws. -/
inductive Inbound
  | malformed
  | parsed (req : InMsg)
deriving DecidableEq, Repr

/-- An envelope passed to `ws.send`.  The `errorEnv` shape is the one
the `catch` block would send; the handler as written never reaches its
`ws.send` (see module comment). -/
inductive WsSent
  | resultEnv (id : Option IdVal) (result : RpcResult)
  | errorEnv (id : Option IdVal) (code : Int) (message : Str)
deriving DecidableEq, Repr

/-- The `message` event handler: the envelopes actually sent, the fault
(if any) with which the handler itself terminates, and the registry.
On any caught error the `catch` block evaluates `request.id` with
`request` out of scope, raising a `ReferenceError` and sending
nothing. -/
def wsMessage (reg : Registry) (inb : Inbound) :
    List WsSent × Option JsErr × Registry :=
  match inb with
  | .malformed =>
    ([], some (.refError (str "request is not defined")), reg)
  | .parsed req =>
    match handleRequest reg req.method req.params with
    | (Except.ok r, reg1) => ([WsSent.resultEnv req.id r], none, reg1)
    | (Except.error _, reg1) =>
      ([], some (.refError (str "request is not defined")), reg1)

deriving instance DecidableEq for Except

/-! ## Auxiliary predicates used by the theorems -/

/-- `n` names a currently running backend of the registry. -/
def runningIn (reg : Registry) (n : Str) : Prop :=
  ∃ p ∈ reg, p.1 = n ∧ p.2.status = str "running"

/-- Every registry entry carries status `running`. -/
def allRunning (reg : Registry) : Prop :=
  ∀ p ∈ reg, p.2.status = str "running"

/-- The names of the running registry entries, in iteration order. -/
def runningNames (reg : Registry) : List Str :=
  (reg.filter (fun p => p.2.status == str "running")).map (fun p => p.1)

/-! ## Claim theorems -/

/-- C1 (code bug): on a malformed (non-JSON) channel message the spec
requires one error reply and a still-usable handler; the code instead
sends nothing — `JSON.parse` throws and the `catch` block evaluates
`request.id` with `request` out of scope, so the handler itself dies
with a `ReferenceError` before its `ws.send` runs.  Evaluated at the
failing input (any unparseable message) on the empty registry. -/
theorem c1_malformed_channel_message_sends_nothing :
    wsMessage [] Inbound.malformed
      = ([], some (JsErr.refError (str "request is not defined")), []) := by
  rfl

/-- C2 (code bug): the spec requires each configured `(name, endpoint)`
pair to be spawned and registered as running; in the code the spawn
options object reads `process.env` inside the initializer of the
block-scoped `const process`, a temporal-dead-zone `ReferenceError`, so
every iteration lands in its `catch` and no backend is ever registered:
`initializeMCPServers` leaves any registry unchanged, and from the empty
registry the configured repositories produce an empty registry. -/
theorem c2_spawn_tdz_registers_nothing :
    (∀ (configs : List (Str × Str)) (reg : Registry),
       initializeMCPServers configs reg = reg)
  ∧ initializeMCPServers REPOSITORIES [] = [] := by
  have hall : ∀ (configs : List (Str × Str)) (reg : Registry),
      initializeMCPServers configs reg = reg := by
    intro configs
    induction configs with
    | nil => intro reg; rfl
    | cons p ps ih =>
      intro reg
      simp only [initializeMCPServers, List.foldl_cons] at ih ⊢
      exact ih reg
  exact ⟨hall, hall REPOSITORIES []⟩

/-- C3 (code bug): the spec requires exactly one reply envelope echoing
the inbound id, including for unknown-method requests; in the code every
error path of the channel handler runs the broken `catch` block
(`request` out of scope), so an unknown-method request with id 1 gets
zero replies and the handler faults with a `ReferenceError`. -/
theorem c3_unknown_method_with_id_gets_no_reply :
    wsMessage []
        (Inbound.parsed (InMsg.mk (some (IdVal.num 1))
          (some (str "nosuch")) none))
      = ([], some (JsErr.refError (str "request is not defined")), []) := by
  decide

/-- C4 counterexample: the claim says the action is the entire remainder
after the first separator; on the name `a_b_c` the code computes action
`b`, not `b_c`, because `split` cuts at every separator and the
destructuring keeps only the second segment. -/
theorem c4_counterexample :
    parseToolName (str "a_b_c") = (str "a", some (str "b"))
  ∧ (parseToolName (str "a_b_c")).2 ≠ some (str "b_c") := by
  constructor
  · decide
  · decide

/-- C4 (amended): for a name with at least one separator, the backend
name is the text before the first separator, and the action is the text
strictly between the first and the second separator (the whole remainder
only when no second separator exists); content after a second separator
is discarded. -/
theorem c4_amended_split_behaviour (pre rest : Str)
    (hp : ∀ c ∈ pre, c ≠ sepChar) :
    parseToolName (pre ++ sepChar :: rest)
      = (pre, some (beforeSep sepChar rest)) := by
  unfold parseToolName
  rw [splitAll_append_sepFree sepChar pre rest hp,
    splitAll_eq_cons sepChar rest]

/-- Witness for the amended C4 at a concrete input. -/
theorem c4_amended_split_behaviour_witness :
    parseToolName (str "ctx" ++ sepChar :: str "search_all")
      = (str "ctx", some (beforeSep sepChar (str "search_all"))) :=
  c4_amended_split_behaviour (str "ctx") (str "search_all") (by decide)

instance (reg : Registry) (n : Str) : Decidable (runningIn reg n) := by
  unfold runningIn
  infer_instance

instance (reg : Registry) : Decidable (allRunning reg) := by
  unfold allRunning
  infer_instance

/-- On a registry satisfying the all-running invariant,
`mcpProcesses.has` is exactly the running-backend test. -/
theorem mapHas_true_iff (reg : Registry) (n : Str)
    (hinv : allRunning reg) :
    mapHas n reg = true ↔ runningIn reg n := by
  unfold mapHas runningIn
  rw [List.any_eq_true]
  constructor
  · rintro ⟨p, hp, he⟩
    exact ⟨p, hp, by simpa using he, hinv p hp⟩
  · rintro ⟨p, hp, he, _⟩
    exact ⟨p, hp, by simpa using he⟩

/-- C5: on any registry satisfying the reachable-state invariant (all
entries running, see C10) and with an arguments object supplied (the
HTTP adapter always passes one), `tools/call` fails with the
UnknownBackend error whenever the backend prefix of the name is not a
running backend — regardless of the action, i.e. the backend check
precedes the action check; when the prefix is running, the actions
`search` and `list` return a result payload, any other action (including
an absent one) fails with the UnknownAction error; and in every case the
registry is returned unchanged. -/
theorem c5_call_tool_dispatch (reg : Registry) (hinv : allRunning reg)
    (nm : Str) (ar : ToolArgs) :
    (¬ runningIn reg (parseToolName nm).1 →
       callTool reg (some nm) (some ar)
         = (Except.error (JsErr.thrown (unknownBackendMsg (parseToolName nm).1)),
            reg))
  ∧ (runningIn reg (parseToolName nm).1 →
       ((parseToolName nm).2 = some (str "search") →
          ∃ r, callTool reg (some nm) (some ar) = (Except.ok r, reg))
     ∧ ((parseToolName nm).2 = some (str "list") →
          ∃ r, callTool reg (some nm) (some ar) = (Except.ok r, reg))
     ∧ (∀ a, (parseToolName nm).2 = some a →
          a ≠ str "search" → a ≠ str "list" →
          callTool reg (some nm) (some ar)
            = (Except.error (JsErr.thrown (unknownActionMsg (some a))), reg))
     ∧ ((parseToolName nm).2 = none →
          callTool reg (some nm) (some ar)
            = (Except.error (JsErr.thrown (unknownActionMsg none)), reg))) := by
  have hiff := mapHas_true_iff reg (parseToolName nm).1 hinv
  constructor
  · intro hnr
    have hh : mapHas (parseToolName nm).1 reg = false := by
      rcases Bool.eq_false_or_eq_true (mapHas (parseToolName nm).1 reg) with h | h
      · exact absurd (hiff.mp h) hnr
      · exact h
    simp [callTool, hh]
  · intro hr
    have hh : mapHas (parseToolName nm).1 reg = true := hiff.mpr hr
    refine ⟨?_, ?_, ?_, ?_⟩
    · intro hs
      have heq : callTool reg (some nm) (some ar)
          = (Except.ok (RpcResult.callR (CallResult.searchResults
              [ SearchHit.mk
                  (str "/" ++ ((parseToolName nm).1 ++ str "/example.md"))
                  (str "Search results for \""
                    ++ (jsShow ar.query ++ (str "\" in " ++ (parseToolName nm).1)))
                  (0.95 : Rat) ])), reg) := by
        simp [callTool, hh, hs]
      exact ⟨_, heq⟩
    · intro hl
      have hne : ¬ (str "list" = str "search" : Prop) := by decide
      have heq : callTool reg (some nm) (some ar)
          = (Except.ok (RpcResult.callR (CallResult.files
              [ FileEntry.mk (str "README.md") (str "file")
                  (jsShow ar.path ++ str "/README.md"),
                FileEntry.mk (str "docs") (str "directory")
                  (jsShow ar.path ++ str "/docs/") ])), reg) := by
        simp [callTool, hh, hl, hne]
      exact ⟨_, heq⟩
    · intro a ha hs hl
      simp [callTool, hh, ha, hs, hl]
    · intro hn
      simp [callTool, hh, hn]

/-- Witness for C5 at a concrete registry and an unknown backend
prefix. -/
theorem c5_call_tool_dispatch_witness :
    callTool [(str "context7", BackendEntry.mk (str "u") (str "running"))]
        (some (str "gamma_search")) (some (ToolArgs.mk none none))
      = (Except.error (JsErr.thrown
            (unknownBackendMsg (parseToolName (str "gamma_search")).1)),
         [(str "context7", BackendEntry.mk (str "u") (str "running"))]) := by
  have h := c5_call_tool_dispatch
    [(str "context7", BackendEntry.mk (str "u") (str "running"))]
    (by decide) (str "gamma_search") (ToolArgs.mk none none)
  exact h.1 (by decide)

/-- The search ToolDescriptor the spec prescribes per running backend:
required string `query`, optional numeric `limit` defaulting to 10. -/
def specSearchDescriptor (n : Str) : Tool :=
  Tool.mk (n ++ str "_search")
    (str "Search " ++ n ++ str " repository")
    (InputSchema.mk (str "object")
      [ (str "query",
         PropSchema.mk (str "string") (some (str "Search query")) none),
        (str "limit",
         PropSchema.mk (str "number") none (some (JsonLit.numL 10))) ]
      (some [str "query"]))

/-- The list ToolDescriptor the spec prescribes per running backend:
optional string `path` defaulting to the root path. -/
def specListDescriptor (n : Str) : Tool :=
  Tool.mk (n ++ str "_list")
    (str "List files in " ++ n ++ str " repository")
    (InputSchema.mk (str "object")
      [ (str "path",
         PropSchema.mk (str "string") none
           (some (JsonLit.strL (str "/")))) ]
      none)

/-- The ResourceDescriptor the spec prescribes per running backend. -/
def specResourceDescriptor (n : Str) : Resource :=
  Resource.mk (str "mcp://" ++ n ++ str "/")
    (n ++ str " Repository")
    (str "Access to " ++ n ++ str " repository files")
    (str "application/json")

theorem runningNames_cons (n : Str) (d : BackendEntry) (rest : Registry) :
    runningNames ((n, d) :: rest)
      = if d.status = str "running" then n :: runningNames rest
        else runningNames rest := by
  unfold runningNames
  by_cases h : d.status = str "running"
  · simp [List.filter_cons, h]
  · simp [List.filter_cons, h]

theorem getAllTools_eq (reg : Registry) :
    getAllTools reg = (runningNames reg).flatMap
      (fun n => [specSearchDescriptor n, specListDescriptor n]) := by
  induction reg with
  | nil => rfl
  | cons p rest ih =>
    rcases p with ⟨n, d⟩
    rw [runningNames_cons]
    by_cases h : d.status = str "running"
    · simp [getAllTools, h, ih, specSearchDescriptor, specListDescriptor]
    · simp [getAllTools, h, ih]

theorem getAllResources_eq (reg : Registry) :
    getAllResources reg = (runningNames reg).map specResourceDescriptor := by
  induction reg with
  | nil => rfl
  | cons p rest ih =>
    rcases p with ⟨n, d⟩
    rw [runningNames_cons]
    by_cases h : d.status = str "running"
    · simp [getAllResources, h, ih, specResourceDescriptor]
    · simp [getAllResources, h, ih]

theorem flatMap_pair_length {α β : Type} (L : List α) (f g : α → β) :
    (L.flatMap (fun n => [f n, g n])).length = 2 * L.length := by
  induction L with
  | nil => rfl
  | cons a l ih =>
    simp only [List.flatMap_cons, List.length_append, List.length_cons,
      List.length_nil, ih]
    omega

theorem append_cancel_suffix {n x s : Str} (h : n ++ s = x ++ s) : n = x := by
  have hl : n.length = x.length := by
    have hc := congrArg List.length h
    simp only [List.length_append] at hc
    omega
  exact (List.append_inj h hl).1

theorem runningNames_mapDelete_ne (reg : Registry) (n : Str) :
    ∀ x ∈ runningNames (mapDelete n reg), x ≠ n := by
  intro x hx
  unfold runningNames mapDelete at hx
  simp only [List.mem_map, List.mem_filter] at hx
  rcases hx with ⟨p, ⟨⟨hp, hkey⟩, hst⟩, hx1⟩
  rw [← hx1]
  exact bne_iff_ne.mp hkey

/-- C6: per running backend (in registry iteration order) `getAllTools`
yields exactly the two prescribed descriptors (search with required
string `query` and numeric `limit` defaulting to 10; list with optional
string `path` defaulting to the root path) and `getAllResources` exactly
one resource descriptor; both are recomputed from the registry passed to
the call, so a backend deleted from the registry contributes no
descriptor to the next call. -/
theorem c6_capability_catalog (reg : Registry) :
    getAllTools reg = (runningNames reg).flatMap
        (fun n => [specSearchDescriptor n, specListDescriptor n])
  ∧ getAllResources reg = (runningNames reg).map specResourceDescriptor
  ∧ (getAllTools reg).length = 2 * (runningNames reg).length
  ∧ (getAllResources reg).length = (runningNames reg).length
  ∧ (∀ n : Str,
        specSearchDescriptor n ∉ getAllTools (mapDelete n reg)
      ∧ specListDescriptor n ∉ getAllTools (mapDelete n reg)
      ∧ specResourceDescriptor n ∉ getAllResources (mapDelete n reg)) := by
  refine ⟨getAllTools_eq reg, getAllResources_eq reg, ?_, ?_, ?_⟩
  · rw [getAllTools_eq reg]
    exact flatMap_pair_length (runningNames reg) _ _
  · rw [getAllResources_eq reg]
    simp
  · intro n
    have hne := runningNames_mapDelete_ne reg n
    refine ⟨?_, ?_, ?_⟩
    · intro hmem
      rw [getAllTools_eq] at hmem
      rcases List.mem_flatMap.mp hmem with ⟨x, hx, hm⟩
      have hxn : x ≠ n := hne x hx
      simp only [List.mem_cons, List.not_mem_nil, or_false] at hm
      rcases hm with hm | hm
      · have : n ++ str "_search" = x ++ str "_search" :=
          congrArg Tool.name hm
        exact hxn (append_cancel_suffix this).symm
      · simp [specSearchDescriptor, specListDescriptor] at hm
    · intro hmem
      rw [getAllTools_eq] at hmem
      rcases List.mem_flatMap.mp hmem with ⟨x, hx, hm⟩
      have hxn : x ≠ n := hne x hx
      simp only [List.mem_cons, List.not_mem_nil, or_false] at hm
      rcases hm with hm | hm
      · simp [specSearchDescriptor, specListDescriptor] at hm
      · have : n ++ str "_list" = x ++ str "_list" :=
          congrArg Tool.name hm
        exact hxn (append_cancel_suffix this).symm
    · intro hmem
      rw [getAllResources_eq] at hmem
      rcases List.mem_map.mp hmem with ⟨x, hx, hm⟩
      have hxn : x ≠ n := hne x hx
      have : x ++ str " Repository" = n ++ str " Repository" :=
        congrArg Resource.name hm
      exact hxn (append_cancel_suffix this)

/-- Witness for C6: a concrete two-backend registry; deleting `beta`
removes its search descriptor from the recomputed catalog. -/
theorem c6_capability_catalog_witness :
    specSearchDescriptor (str "beta")
      ∉ getAllTools (mapDelete (str "beta")
          [ (str "alpha", BackendEntry.mk (str "x") (str "running")),
            (str "beta", BackendEntry.mk (str "y") (str "running")) ]) := by
  have h := c6_capability_catalog
    [ (str "alpha", BackendEntry.mk (str "x") (str "running")),
      (str "beta", BackendEntry.mk (str "y") (str "running")) ]
  exact (h.2.2.2.2 (str "beta")).1

/-- Splitting a scheme-prefixed uri: the first two segments are the
scheme text and the empty segment between the two slashes; the rest is
the split of the remainder. -/
theorem splitAll_scheme (rest : Str) :
    splitAll '/' (str "mcp://" ++ rest)
      = str "mcp:" :: [] :: splitAll '/' rest := by
  have happ : str "mcp://" ++ rest = str "mcp:" ++ '/' :: ('/' :: rest) := rfl
  rw [happ,
    splitAll_append_sepFree '/' (str "mcp:") ('/' :: rest) (by decide),
    splitAll_cons_sep]

/-- C7: `resources/read` never fails — for every uri string (and any
registry, which it never consults) it returns a contents payload — and
for a scheme-prefixed uri the payload text references the backend name
(the remainder up to the first path separator) and the path (everything
after that separator). -/
theorem c7_read_resource_total_parse :
    (∀ (reg : Registry) (u : Str),
       readResourceOp reg (some u)
         = (Except.ok (RpcResult.readR (readResource u)), reg))
  ∧ (∀ rest : Str,
       readResource (str "mcp://" ++ rest)
         = ReadResult.mk [ ReadContent.mk (str "mcp://" ++ rest)
             (str "text/plain")
             (str "Content of " ++ afterFirst '/' rest ++ (str " from "
               ++ (beforeSep '/' rest ++ str " repository"))) ]) := by
  constructor
  · intro reg u
    rfl
  · intro rest
    simp only [readResource]
    rw [splitAll_scheme rest, splitAll_eq_cons '/' rest]
    simp [jsShow, joinSep_tail_splitAll]

theorem handleRequest_tools_list (reg : Registry) (p : Option Params) :
    handleRequest reg (some (str "tools/list")) p
      = (Except.ok (RpcResult.toolsList (getAllTools reg)), reg) := by
  unfold handleRequest
  rw [if_neg (by decide : ¬ ((some (str "tools/list") : Option Str)
      = some (str "initialize"))), if_pos rfl]

/-- C8: issuing `tools/list` twice with no intervening lifecycle change
returns identical descriptor lists (the second call runs on the registry
the first call returned, which is the original registry), and the list
is recomputed from the registry of the call. -/
theorem c8_tools_list_idempotent (reg : Registry) (p : Option Params) :
    (handleRequest reg (some (str "tools/list")) p).1
      = (handleRequest ((handleRequest reg (some (str "tools/list")) p).2)
          (some (str "tools/list")) p).1
  ∧ (handleRequest reg (some (str "tools/list")) p).2 = reg
  ∧ (handleRequest reg (some (str "tools/list")) p).1
      = Except.ok (RpcResult.toolsList (getAllTools reg)) := by
  rw [handleRequest_tools_list reg p]
  simp [handleRequest_tools_list]

theorem callTool_preserves (reg : Registry) (nm : Option Str)
    (ar : Option ToolArgs) : (callTool reg nm ar).2 = reg := by
  cases nm with
  | none => rfl
  | some s =>
    simp only [callTool]
    repeat' split
    all_goals rfl

theorem readResourceOp_preserves (reg : Registry) (u : Option Str) :
    (readResourceOp reg u).2 = reg := by
  cases u <;> rfl

/-- C9: the router never mutates the registry: `handleRequest` — on
every method string (known or unknown) and every params object,
including absent ones — and the operations it dispatches to, `callTool`
and the `resources/read` dispatch, all return the registry they were
given, whether they succeed or fail. -/
theorem c9_router_preserves_registry (reg : Registry) (m : Option Str)
    (p : Option Params) (nm : Option Str) (ar : Option ToolArgs)
    (u : Option Str) :
    (handleRequest reg m p).2 = reg
  ∧ (callTool reg nm ar).2 = reg
  ∧ (readResourceOp reg u).2 = reg := by
  refine ⟨?_, callTool_preserves reg nm ar, readResourceOp_preserves reg u⟩
  unfold handleRequest
  repeat' split
  all_goals first
    | rfl
    | apply callTool_preserves
    | apply readResourceOp_preserves

theorem allRunning_regStep (reg : Registry) (ev : RegEvent)
    (h : allRunning reg) : allRunning (regStep reg ev) := by
  cases ev with
  | spawned n u =>
    simp only [regStep, mapSet]
    split
    · intro p hp
      rcases List.mem_map.mp hp with ⟨q, hq, hqe⟩
      by_cases hk : (q.1 == n) = true
      · rw [if_pos hk] at hqe
        rw [← hqe]
      · rw [if_neg hk] at hqe
        rw [← hqe]
        exact h q hq
    · intro p hp
      rcases List.mem_append.mp hp with hp | hp
      · exact h p hp
      · have hp1 : p = (n, BackendEntry.mk u (str "running")) :=
          List.mem_singleton.mp hp
        rw [hp1]
  | exited n c =>
    intro p hp
    exact h p (List.mem_of_mem_filter hp)

theorem allRunning_foldl (evs : List RegEvent) :
    ∀ reg : Registry, allRunning reg
      → allRunning (List.foldl regStep reg evs) := by
  induction evs with
  | nil => intro reg h; exact h
  | cons e es ih =>
    intro reg h
    exact ih (regStep reg e) (allRunning_regStep reg e h)

/-- C10: in every reachable registry state (any sequence of the two
mutations the code performs: insert-as-running on spawn, delete on
exit), every entry has status `running`; hence the `/health` process
list only ever reports status `running`, and `mcpProcesses.has` is
equivalent to the presence of a running entry. -/
theorem c10_registry_always_running (evs : List RegEvent) :
    allRunning (regReach evs)
  ∧ (∀ pi ∈ healthProcesses (regReach evs), pi.status = str "running")
  ∧ (∀ n : Str, mapHas n (regReach evs) = true
      ↔ ∃ u : Str, (n, BackendEntry.mk u (str "running")) ∈ regReach evs) := by
  have hall : allRunning (regReach evs) := by
    refine allRunning_foldl evs [] ?_
    intro p hp
    cases hp
  refine ⟨hall, ?_, ?_⟩
  · intro pi hpi
    rcases List.mem_map.mp hpi with ⟨q, hq, hqe⟩
    rw [← hqe]
    exact hall q hq
  · intro n
    constructor
    · intro hh
      rcases List.any_eq_true.mp hh with ⟨q, hq, he⟩
      have hqn : q.1 = n := by simpa using he
      have hst := hall q hq
      rcases q with ⟨qn, qu, qs⟩
      simp only at hqn hst
      refine ⟨qu, ?_⟩
      rw [← hqn, ← hst]
      exact hq
    · rintro ⟨u, hu⟩
      refine List.any_eq_true.mpr
        ⟨(n, BackendEntry.mk u (str "running")), hu, ?_⟩
      simp

/-- Witness for C10: from a concrete spawn/exit history, presence of the
surviving backend in the registry yields its running entry. -/
theorem c10_registry_always_running_witness :
    ∃ u : Str, (str "beta", BackendEntry.mk u (str "running"))
      ∈ regReach [ RegEvent.spawned (str "alpha") (str "x"),
                   RegEvent.spawned (str "beta") (str "y"),
                   RegEvent.exited (str "alpha") 1 ] := by
  have h := c10_registry_always_running
    [ RegEvent.spawned (str "alpha") (str "x"),
      RegEvent.spawned (str "beta") (str "y"),
      RegEvent.exited (str "alpha") 1 ]
  exact (h.2.2 (str "beta")).mp (by decide)

end UMCP
